import Mathlib

/-!
Package theskyinflames/set: sequential semantics of `set.go`

A shallow embedding of the Go package `set` (`src/set.go`).

* `SyncMap` models the documented behaviour of the standard library type
  `sync.Map` restricted to the four methods the package calls
  (`Load`, `LoadOrStore`, `Delete`, `Range`).
* `Set.Add`, `Set.Peek`, `Set.Pop`, `Set.Count`, `Set.Clear`,
  `Set.getItemsSlice`, `Set.Iterator` follow the bodies of the Go methods
  line by line, in state-passing style: every method returns the set it
  leaves behind next to its Go results.
* The embedded `sync.RWMutex` is not part of the sequential state: when one
  goroutine runs the methods one after another the mutex is free whenever a
  method starts, `Peek` releases it right after taking it and `Pop` releases
  it in its deferred `Unlock`, so it is free again whenever a method returns.
* Go `int` counters (`count`, `c`) are natural numbers: they are bounded by
  the number of entries held in memory, so they never wrap.
* `Client` runs a sequence of calls of one goroutine that also holds producers.
* `Goroutine` and `Pool` give the interleaving semantics of concurrent `Add` and
  `Pop` calls: one atomic step per operation on the mutex or on the `sync.Map`,
  the mutex being part of the shared state there.
-/

namespace GoSet

/-- A Go `interface{}` value: `none` is the nil interface, `some a` any other value. -/
abbrev Item (α : Type) := Option α

/-- The two package-level error values of `set.go`. A Go `error` result is an
`Option Error`, `none` being the nil error. -/
inductive Error where
  | ErrAlreadyExists
  | ErrKeyDoesNotExist
  deriving DecidableEq, Repr

/-- The Go type `Key func() string`: an accessor that is invoked to obtain the key.
A Lean function is pure, so an accessor yields the same string each time it is
invoked. -/
abbrev Key := Unit → String

/-- Association-list lookup: the value of the first entry stored under `key`. -/
def lookupEntry {α : Type} (key : String) : List (String × Item α) → Option (Item α)
  | [] => none
  | (k, v) :: rest => if k = key then some v else lookupEntry key rest

/-- Contents of a `sync.Map` whose keys are strings: finitely many entries, at
most one per key. -/
structure SyncMap (α : Type) where
  entries : List (String × Item α)
  nodup : (entries.map Prod.fst).Nodup

/-- The order in which one call of `sync.Map.Range` visits the entries.  Go leaves
it unspecified; it is some rearrangement of the entries present. -/
structure RangeOrder (α : Type) where
  visit : List (String × Item α) → List (String × Item α)
  perm : ∀ l, (visit l).Perm l

/-- Visit the entries in the order in which they are stored. -/
def RangeOrder.stored {α : Type} : RangeOrder α := ⟨fun l => l, fun l => List.Perm.refl l⟩

/-- Visit the entries in the reverse of the order in which they are stored. -/
def RangeOrder.reversed {α : Type} : RangeOrder α := ⟨List.reverse, List.reverse_perm⟩

/-- The loop of `sync.Map.Range`: call `f` on each entry in turn, threading the
variables the callback captured (`σ`) through the monad `m` of its effects, and
stop as soon as `f` returns `false`. -/
def rangeLoop {α σ : Type} {m : Type → Type} [Monad m]
    (f : σ → String → Item α → m (σ × Bool)) : List (String × Item α) → σ → m σ
  | [], st => pure st
  | (k, v) :: rest, st => do
      let r ← f st k v
      if r.2 then rangeLoop f rest r.1 else pure r.1

namespace SyncMap

variable {α : Type}

/-- The keys that have an entry. -/
def keys (m : SyncMap α) : List String := m.entries.map Prod.fst

/-- The zero value `sync.Map{}`: no entries. -/
def empty : SyncMap α := ⟨[], List.nodup_nil⟩

/-- Go `sync.Map.Load`: the value stored for `key` and `true`, or nil and `false`. -/
def Load (m : SyncMap α) (key : String) : Item α × Bool :=
  match lookupEntry key m.entries with
  | some v => (v, true)
  | none => (none, false)

/-- Go `sync.Map.LoadOrStore`: if `key` has an entry, return its value and `true`
and store nothing; otherwise store `value` under `key` and return `value` and
`false`. -/
def LoadOrStore (m : SyncMap α) (key : String) (value : Item α) :
    SyncMap α × Item α × Bool :=
  if h : key ∈ m.keys then (m, (m.Load key).1, true)
  else (⟨(key, value) :: m.entries, List.nodup_cons.mpr ⟨h, m.nodup⟩⟩, value, false)

/-- Go `sync.Map.Delete`: remove the entry of `key`, if there is one. -/
def Delete (m : SyncMap α) (key : String) : SyncMap α :=
  ⟨m.entries.filter (fun e => decide (e.1 ≠ key)),
    (m.nodup.sublist ((List.filter_sublist m.entries).map Prod.fst))⟩

/-- Go `sync.Map.Range`: call `f` on the entries, in the order `ord` picks for this
call, until `f` returns `false`. -/
def Range {σ : Type} {μ : Type → Type} [Monad μ] (ord : RangeOrder α) (m : SyncMap α)
    (f : σ → String → Item α → μ (σ × Bool)) (init : σ) : μ σ :=
  rangeLoop f (ord.visit m.entries) init

end SyncMap

/-- The Go struct `Set`; its field `set` is the `sync.Map`. -/
structure Set (α : Type) where
  set : SyncMap α

/-- The closure returned by `Set.Iterator`: its captured variables `items` and `c`. -/
structure Iterator (α : Type) where
  items : List (Item α)
  c : Nat

namespace Set

variable {α : Type}

/-- Go `Set.Add` (set.go 24-30). -/
def Add (s : Set α) (key : Key) (item : Item α) : Set α × Option Error :=
  let r := s.set.LoadOrStore (key ()) item
  let loaded := r.2.2
  let err : Option Error := if loaded then some Error.ErrAlreadyExists else none
  (⟨r.1⟩, err)

/-- Go `Set.Peek` (set.go 60-69); `Lock` followed by `Unlock` leaves the mutex as it was. -/
def Peek (s : Set α) (key : Key) : Set α × Item α × Option Error :=
  let r := s.set.Load (key ())
  let item := r.1
  let ok := r.2
  let err : Option Error := if !ok then some Error.ErrKeyDoesNotExist else none
  (s, item, err)

/-- Go `Set.Pop` (set.go 71-83): `Peek`, an early return on error, then `Delete`;
the accessor `key` is invoked once by `Peek` and once more for `Delete`. -/
def Pop (s : Set α) (key : Key) : Set α × Item α × Option Error :=
  let r := s.Peek key
  let s1 := r.1
  let item := r.2.1
  let err := r.2.2
  if err ≠ none then (s1, item, err)
  else (⟨s1.set.Delete (key ())⟩, item, err)

/-- Go `Set.Count` (set.go 85-93): `Range` with a callback that increments `count`. -/
def Count (ord : RangeOrder α) (s : Set α) : Set α × Nat :=
  let count := 0
  let f := fun (count : Nat) (_key : String) (_value : Item α) => ((count + 1, true) : Id (Nat × Bool))
  (s, Id.run (s.set.Range ord f count))

/-- Go `Set.Clear` (set.go 95-98): the field is replaced by a zero `sync.Map`. -/
def Clear (_s : Set α) : Set α := ⟨SyncMap.empty⟩

/-- Go `Set.getItemsSlice` (set.go 48-58): a slice of `Count()` nils, filled by a
`Range` callback that writes `items[c]` and increments `c`.  The result is `none`
when the write `items[c] = value` is out of range (Go panics). -/
def getItemsSlice (ordCount ordRange : RangeOrder α) (s : Set α) :
    Option (Set α × List (Item α)) :=
  let r := s.Count ordCount
  let s1 := r.1
  let items : List (Item α) := List.replicate r.2 none
  let c := 0
  let catchingItems := fun (st : List (Item α) × Nat) (_key : String) (value : Item α) =>
    if st.2 < st.1.length then some ((st.1.set st.2 value, st.2 + 1), true) else none
  match s1.set.Range ordRange catchingItems (items, c) with
  | some st => some (s1, st.1)
  | none => none

/-- Go `Set.Iterator` (set.go 32-46): take the items slice and return the closure
over it with `c = 0`. -/
def Iterator (ordCount ordRange : RangeOrder α) (s : Set α) :
    Option (Set α × GoSet.Iterator α) :=
  match s.getItemsSlice ordCount ordRange with
  | some r => some (r.1, ⟨r.2, 0⟩)
  | none => none

end Set

namespace Iterator

variable {α : Type}

/-- One invocation of the closure (set.go 37-44): the pair `(item, lastItem)` it
returns and the closure with its updated `c`. -/
def call (it : Iterator α) : (Item α × Bool) × Iterator α :=
  if h : it.c < it.items.length then
    let item := it.items.get ⟨it.c, h⟩
    let c := it.c + 1
    ((item, decide (c = it.items.length)), ⟨it.items, c⟩)
  else
    ((none, decide (it.c = it.items.length)), it)

/-- The closure after `n` invocations. -/
def after (it : Iterator α) : Nat → Iterator α
  | 0 => it
  | n + 1 => (it.after n).call.2

/-- What invocation number `i + 1` of the closure returns. -/
def nthCall (it : Iterator α) (i : Nat) : Item α × Bool := (it.after i).call.1

/-- An invocation of the closure while the set is `s`, in the state-passing style
of the methods.  The closure body (set.go 37-44) refers to its captured `items`
and `c` only and not to the receiver `s` of `Set.Iterator`, so the set is handed
back as it came. -/
def invoke (s : Set α) (it : Iterator α) : Set α × (Item α × Bool) × Iterator α :=
  (s, it.call.1, it.call.2)

end Iterator

/-! ## Fixtures of `set_test.go` -/

/-- The accessor `key1` of set_test.go. -/
def key1 : Key := fun _ => "key1"

/-- The accessor `key2` of set_test.go. -/
def key2 : Key := fun _ => "key2"

/-- The accessor the tests use for a missing key. -/
def key4 : Key := fun _ => "key4"

/-- The empty set the tests build: `&Set{RWMutex: sync.RWMutex{}, set: sync.Map{}}`. -/
def emptySet {α : Type} : Set α := ⟨SyncMap.empty⟩

/-- The function `load` of set_test.go: the empty set after `Add(key1, 1)` and
`Add(key2, 2)`. -/
def load : Set Int := ((emptySet.Add key1 (some 1)).1.Add key2 (some 2)).1

/-- Add the pairs of a list one after another, dropping the error results. -/
def addAll {α : Type} (s : Set α) : List (String × Item α) → Set α
  | [] => s
  | (k, v) :: rest => addAll (s.Add (fun _ => k) v).1 rest

/-! ## A sequential client: the set and the producers it holds -/

/-- A call a client program makes: a method of the set, or an invocation of the
producer it obtained from its `p`-th call of `Iterator` (counted from 0). -/
inductive Call (α : Type) where
  | add (key : Key) (item : Item α)
  | pop (key : Key)
  | clear
  | iterator (ordCount ordRange : RangeOrder α)
  | next (p : Nat)

/-- Whether the call is an invocation of producer `p`. -/
def Call.isNext {α : Type} (p : Nat) : Call α → Bool
  | Call.next q => decide (q = p)
  | _ => false

/-- State of a client program: the set and the producers created so far, in the
order of their creation. -/
structure Client (α : Type) where
  set : Set α
  producers : List (Iterator α)

/-- One call of the client: the state it leaves and, for an invocation of a
producer, the pair that producer returned.  The methods are the embedded ones;
`none` is a Go panic.  Invoking a producer that was never created does nothing. -/
def Client.step {α : Type} (w : Client α) : Call α → Option (Client α × Option (Item α × Bool))
  | Call.add key item => some (⟨(w.set.Add key item).1, w.producers⟩, none)
  | Call.pop key => some (⟨(w.set.Pop key).1, w.producers⟩, none)
  | Call.clear => some (⟨w.set.Clear, w.producers⟩, none)
  | Call.iterator ordCount ordRange =>
    match w.set.Iterator ordCount ordRange with
    | some r => some (⟨r.1, w.producers ++ [r.2]⟩, none)
    | none => none
  | Call.next p =>
    match w.producers[p]? with
    | some it =>
      let r := Iterator.invoke w.set it
      some (⟨r.1, w.producers.set p r.2.2⟩, some r.2.1)
    | none => some (w, none)

/-- The pairs producer `p` returns, in order, while the client makes the calls
`cs` one after another (`none` if a call panics). -/
def Client.produced {α : Type} (p : Nat) : Client α → List (Call α) → Option (List (Item α × Bool))
  | _, [] => some []
  | w, c :: cs =>
    match w.step c with
    | none => none
    | some r =>
      match Client.produced p r.1 cs with
      | none => none
      | some rest => some (if c.isNext p then r.2.toList ++ rest else rest)

/-! ## Concurrent goroutines: interleaving of the synchronisation steps -/

/-- What goroutines share: whether the embedded `RWMutex` is write-locked, and the
`sync.Map`. -/
structure Shared (α : Type) where
  locked : Bool
  set : SyncMap α

/-- A goroutine that runs one call of `Add` or of `Pop`, stopped before its next
operation on the shared mutex or map (these operations are atomic; what a
goroutine does to its own locals in between is not visible to the others).
The `pop...` points are, in order: `s.Lock()` and `s.Unlock()` of `Peek`
(set.go 61-62), `s.set.Load` (64), `s.Lock()` of `Pop` (78), `s.set.Delete` (81)
and the deferred `s.Unlock()` (79). -/
inductive Goroutine (α : Type) where
  | add (key : Key) (item : Item α)
  | addReturned (err : Option Error)
  | popPeekLock (key : Key)
  | popPeekUnlock (key : Key)
  | popPeekLoad (key : Key)
  | popLock (key : Key) (item : Item α)
  | popDelete (key : Key) (item : Item α)
  | popUnlock (key : Key) (item : Item α)
  | popReturned (item : Item α) (err : Option Error)

/-- The error a finished `Add` returned. -/
def Goroutine.addResult {α : Type} : Goroutine α → Option (Option Error)
  | Goroutine.addReturned err => some err
  | _ => none

/-- The item and error a finished `Pop` returned. -/
def Goroutine.popResult {α : Type} : Goroutine α → Option (Item α × Option Error)
  | Goroutine.popReturned item err => some (item, err)
  | _ => none

/-- One atomic step of a goroutine on the shared state; `none` when it cannot
move: it has returned, or it waits in `Lock` for the mutex. -/
def Goroutine.step {α : Type} (sh : Shared α) : Goroutine α → Option (Shared α × Goroutine α)
  | Goroutine.add key item =>
    let r := (Set.mk sh.set).Add key item
    some (⟨sh.locked, r.1.set⟩, Goroutine.addReturned r.2)
  | Goroutine.addReturned _ => none
  | Goroutine.popPeekLock key =>
    if sh.locked then none else some (⟨true, sh.set⟩, Goroutine.popPeekUnlock key)
  | Goroutine.popPeekUnlock key => some (⟨false, sh.set⟩, Goroutine.popPeekLoad key)
  | Goroutine.popPeekLoad key =>
    let r := sh.set.Load (key ())
    let item := r.1
    let ok := r.2
    let err : Option Error := if !ok then some Error.ErrKeyDoesNotExist else none
    if err ≠ none then some (sh, Goroutine.popReturned item err)
    else some (sh, Goroutine.popLock key item)
  | Goroutine.popLock key item =>
    if sh.locked then none else some (⟨true, sh.set⟩, Goroutine.popDelete key item)
  | Goroutine.popDelete key item =>
    some (⟨sh.locked, sh.set.Delete (key ())⟩, Goroutine.popUnlock key item)
  | Goroutine.popUnlock _ item => some (⟨false, sh.set⟩, Goroutine.popReturned item none)
  | Goroutine.popReturned _ _ => none

/-- The shared state and the goroutines running against it. -/
structure Pool (α : Type) where
  shared : Shared α
  goroutines : List (Goroutine α)

/-- The scheduler lets goroutine `i` take its next step; nothing happens when
there is no such goroutine or it cannot move. -/
def Pool.step {α : Type} (c : Pool α) (i : Nat) : Pool α :=
  match c.goroutines[i]? with
  | none => c
  | some g =>
    match g.step c.shared with
    | none => c
    | some r => ⟨r.1, c.goroutines.set i r.2⟩

/-- Run a schedule: the goroutines the scheduler picks, in order. -/
def Pool.run {α : Type} (c : Pool α) : List Nat → Pool α
  | [] => c
  | i :: rest => (c.step i).run rest

/-- The pool of `n` goroutines that call `Pop(key)` against the set `s`, none
started yet. -/
def popRace {α : Type} (s : Set α) (key : Key) (n : Nat) : Pool α :=
  ⟨⟨false, s.set⟩, List.replicate n (Goroutine.popPeekLock key)⟩

/-- Goroutines that call `Add(key, v)` for each `v` of `vs` against the set `s`,
none started yet. -/
def addRace {α : Type} (s : Set α) (key : Key) (vs : List (Item α)) : Pool α :=
  ⟨⟨false, s.set⟩, vs.map (Goroutine.add key)⟩

/-- A set whose only entry is `key1 ↦ 1`. -/
def single : Set Int := (emptySet.Add key1 (some 1)).1

/-- Invariant of the goroutines of `addRace s key vs` once some of them have moved.
Either none has moved, or exactly one goroutine `i` has returned nil, its value is
stored under the key, and every other goroutine has not moved yet or has returned
`ErrAlreadyExists`. -/
def AddRaceInv {α : Type} (s : Set α) (key : Key) (vs : List (Item α)) (c : Pool α) : Prop :=
  c.goroutines.length = vs.length ∧
  ((c.shared.set = s.set ∧
      ∀ (j : Nat) (w : Item α), vs[j]? = some w →
        c.goroutines[j]? = some (Goroutine.add key w)) ∨
    ∃ (i : Nat) (v : Item α), vs[i]? = some v ∧
      c.goroutines[i]? = some (Goroutine.addReturned none) ∧
      (key (), v) ∈ c.shared.set.entries ∧
      ∀ (j : Nat) (w : Item α), j ≠ i → vs[j]? = some w →
        (c.goroutines[j]? = some (Goroutine.add key w) ∨
          c.goroutines[j]? = some (Goroutine.addReturned (some Error.ErrAlreadyExists))))

/-! ## Lemmas on the association list and on `sync.Map` -/

section Lemmas

variable {α : Type}

theorem lookupEntry_eq_none {key : String} {l : List (String × Item α)} :
    lookupEntry key l = none ↔ key ∉ l.map Prod.fst := by
  induction l with
  | nil => simp [lookupEntry]
  | cons e rest ih =>
    obtain ⟨k, v⟩ := e
    by_cases h : k = key
    · simp [lookupEntry, h]
    · have h' : ¬ key = k := fun c => h c.symm
      simp only [lookupEntry, h, if_false, ih, List.map_cons, List.mem_cons, h', false_or]

theorem lookupEntry_of_mem {key : String} {v : Item α} {l : List (String × Item α)}
    (nd : (l.map Prod.fst).Nodup) (hm : (key, v) ∈ l) : lookupEntry key l = some v := by
  induction l with
  | nil => cases hm
  | cons e rest ih =>
    obtain ⟨k, w⟩ := e
    rw [List.map_cons, List.nodup_cons] at nd
    rcases List.mem_cons.mp hm with heq | hin
    · cases heq
      simp [lookupEntry]
    · have hk : k ≠ key := by
        intro c
        subst c
        exact nd.1 (List.mem_map.mpr ⟨(k, v), hin, rfl⟩)
      simp only [lookupEntry, hk, if_false]
      exact ih nd.2 hin

theorem mem_of_lookupEntry {key : String} {v : Item α} {l : List (String × Item α)}
    (h : lookupEntry key l = some v) : (key, v) ∈ l := by
  induction l with
  | nil => simp [lookupEntry] at h
  | cons e rest ih =>
    obtain ⟨k, w⟩ := e
    by_cases hk : k = key
    · simp only [lookupEntry, hk, if_true, Option.some.injEq] at h
      simp [hk, h]
    · simp only [lookupEntry, hk, if_false] at h
      exact List.mem_cons_of_mem _ (ih h)

theorem lookupEntry_filter_ne {key key' : String} (hne : key' ≠ key)
    (l : List (String × Item α)) :
    lookupEntry key' (l.filter (fun e => decide (e.1 ≠ key))) = lookupEntry key' l := by
  induction l with
  | nil => rfl
  | cons e rest ih =>
    obtain ⟨k, w⟩ := e
    by_cases hk : k = key
    · have hk' : k ≠ key' := fun c => hne (c.symm.trans hk)
      have hd : decide ((k, w).1 ≠ key) = false := decide_eq_false (not_not.mpr hk)
      rw [List.filter_cons_of_neg (by simp [hd]), ih]
      simp only [lookupEntry, hk', if_false]
    · have hd : decide ((k, w).1 ≠ key) = true := decide_eq_true hk
      rw [List.filter_cons_of_pos (by simp [hd])]
      by_cases hk' : k = key'
      · simp only [lookupEntry, hk', if_true]
      · simp only [lookupEntry, hk', if_false, ih]

theorem lookupEntry_filter_self (key : String) (l : List (String × Item α)) :
    lookupEntry key (l.filter (fun e => decide (e.1 ≠ key))) = none := by
  rw [lookupEntry_eq_none]
  intro hm
  obtain ⟨e, he, hk⟩ := List.mem_map.mp hm
  have := (List.mem_filter.mp he).2
  simp [hk] at this

theorem SyncMap.Load_of_not_mem {m : SyncMap α} {key : String} (h : key ∉ m.keys) :
    m.Load key = (none, false) := by
  have h0 : lookupEntry key m.entries = none := lookupEntry_eq_none.mpr h
  simp only [SyncMap.Load, h0]

theorem SyncMap.Load_of_mem_entries {m : SyncMap α} {key : String} {v : Item α}
    (h : (key, v) ∈ m.entries) : m.Load key = (v, true) := by
  have h0 : lookupEntry key m.entries = some v := lookupEntry_of_mem m.nodup h
  simp only [SyncMap.Load, h0]

theorem SyncMap.exists_entry_of_mem_keys {m : SyncMap α} {key : String} (h : key ∈ m.keys) :
    ∃ v, (key, v) ∈ m.entries := by
  obtain ⟨e, he, hk⟩ := List.mem_map.mp h
  obtain ⟨k, v⟩ := e
  cases hk
  exact ⟨v, he⟩

theorem SyncMap.Load_snd_iff (m : SyncMap α) (key : String) :
    (m.Load key).2 = true ↔ key ∈ m.keys := by
  constructor
  · intro h
    by_contra hc
    rw [SyncMap.Load_of_not_mem hc] at h
    cases h
  · intro h
    obtain ⟨v, hv⟩ := SyncMap.exists_entry_of_mem_keys h
    rw [SyncMap.Load_of_mem_entries hv]

theorem Set.Peek_of_mem_entries {s : Set α} {key : Key} {v : Item α}
    (h : (key (), v) ∈ s.set.entries) : s.Peek key = (s, v, none) := by
  simp [Set.Peek, SyncMap.Load_of_mem_entries h]

theorem Set.Peek_of_not_mem {s : Set α} {key : Key} (h : key () ∉ s.set.keys) :
    s.Peek key = (s, none, some Error.ErrKeyDoesNotExist) := by
  simp [Set.Peek, SyncMap.Load_of_not_mem h]

theorem Set.Peek_err_iff (s : Set α) (key : Key) :
    (s.Peek key).2.2 ≠ none ↔ key () ∉ s.set.keys := by
  constructor
  · intro h hc
    obtain ⟨v, hv⟩ := SyncMap.exists_entry_of_mem_keys hc
    rw [Set.Peek_of_mem_entries hv] at h
    exact h rfl
  · intro h
    rw [Set.Peek_of_not_mem h]
    simp

theorem Set.Add_of_mem {s : Set α} {key : Key} (v : Item α) (h : key () ∈ s.set.keys) :
    s.Add key v = (s, some Error.ErrAlreadyExists) := by
  simp [Set.Add, SyncMap.LoadOrStore, h]

theorem Set.Add_of_not_mem {s : Set α} {key : Key} (v : Item α) (h : key () ∉ s.set.keys) :
    (s.Add key v).2 = none ∧ (s.Add key v).1.set.entries = (key (), v) :: s.set.entries := by
  simp [Set.Add, SyncMap.LoadOrStore, h]

theorem Set.Pop_of_not_mem {s : Set α} {key : Key} (h : key () ∉ s.set.keys) :
    s.Pop key = (s, none, some Error.ErrKeyDoesNotExist) := by
  simp [Set.Pop, Set.Peek_of_not_mem h]

theorem Set.Pop_of_mem_entries {s : Set α} {key : Key} {v : Item α}
    (h : (key (), v) ∈ s.set.entries) :
    s.Pop key = (⟨s.set.Delete (key ())⟩, v, none) := by
  simp [Set.Pop, Set.Peek_of_mem_entries h]

theorem Set.peek_eq_of_lookup_eq {s t : Set α} {key : Key}
    (h : lookupEntry (key ()) t.set.entries = lookupEntry (key ()) s.set.entries) :
    (t.Peek key).2 = (s.Peek key).2 := by
  simp only [Set.Peek, SyncMap.Load, h]

theorem rangeLoop_count (l : List (String × Item α)) (n : Nat) :
    Id.run (rangeLoop
      (fun (count : Nat) (_key : String) (_value : Item α) => ((count + 1, true) : Id (Nat × Bool)))
      l n) = n + l.length := by
  induction l generalizing n with
  | nil => rfl
  | cons e rest ih =>
    obtain ⟨k, v⟩ := e
    have h := ih (n + 1)
    simp only [Id.run] at h ⊢
    simp only [rangeLoop, bind, if_true, h, List.length_cons]
    omega

theorem Set.Count_eq (ord : RangeOrder α) (s : Set α) :
    s.Count ord = (s, s.set.entries.length) := by
  simp only [Set.Count, SyncMap.Range, rangeLoop_count, (ord.perm s.set.entries).length_eq,
    Nat.zero_add]

theorem rangeLoop_catchingItems (l : List (String × Item α)) (filled : List (Item α)) (k : Nat) :
    rangeLoop
      (fun (st : List (Item α) × Nat) (_key : String) (value : Item α) =>
        if st.2 < st.1.length then some ((st.1.set st.2 value, st.2 + 1), true) else none)
      l (filled ++ List.replicate (l.length + k) none, filled.length)
    = some (filled ++ l.map Prod.snd ++ List.replicate k none, filled.length + l.length) := by
  induction l generalizing filled with
  | nil => simp [rangeLoop]
  | cons e rest ih =>
    obtain ⟨key, v⟩ := e
    have hlt : filled.length < (filled ++ List.replicate (rest.length + 1 + k) none).length := by
      simp only [List.length_append, List.length_replicate]
      omega
    have hset : (filled ++ List.replicate (rest.length + 1 + k) none).set filled.length v
        = (filled ++ [v]) ++ List.replicate (rest.length + k) none := by
      have hr : List.replicate (rest.length + 1 + k) (none : Item α)
          = none :: List.replicate (rest.length + k) none := by
        rw [show rest.length + 1 + k = (rest.length + k) + 1 by omega, List.replicate_succ]
      rw [hr, List.set_append_right _ _ (Nat.le_refl _)]
      simp
    have hstep := ih (filled ++ [v])
    simp only [List.length_append, List.length_singleton] at hstep
    simp only [List.append_assoc, List.singleton_append, List.cons_append] at hstep
    simp only [rangeLoop, List.length_cons, hlt, if_true, hset, bind, Option.bind,
      List.map_cons, List.append_assoc, List.singleton_append, List.cons_append, hstep]
    simp only [List.nil_append, Nat.add_assoc, Nat.add_comm 1 rest.length]

theorem Set.getItemsSlice_eq (ordCount ordRange : RangeOrder α) (s : Set α) :
    ∃ items, s.getItemsSlice ordCount ordRange = some (s, items) ∧
      items = (ordRange.visit s.set.entries).map Prod.snd := by
  refine ⟨_, ?_, rfl⟩
  have h := rangeLoop_catchingItems (ordRange.visit s.set.entries) [] 0
  simp only [List.nil_append, List.length_nil, Nat.add_zero, Nat.zero_add, List.replicate_zero,
    List.append_nil, (ordRange.perm s.set.entries).length_eq] at h
  simp only [Set.getItemsSlice, Set.Count_eq, SyncMap.Range, h]

theorem addAll_entries (kvs : List (String × Item α)) (s : Set α)
    (nd : (kvs.map Prod.fst).Nodup) (hdisj : ∀ k ∈ kvs.map Prod.fst, k ∉ s.set.keys) :
    (addAll s kvs).set.entries = kvs.reverse ++ s.set.entries := by
  induction kvs generalizing s with
  | nil => rfl
  | cons e rest ih =>
    obtain ⟨k, v⟩ := e
    rw [List.map_cons, List.nodup_cons] at nd
    have habs : k ∉ s.set.keys := hdisj k (List.mem_cons_self _ _)
    have hent : (s.Add (fun _ => k) v).1.set.entries = (k, v) :: s.set.entries :=
      (@Set.Add_of_not_mem α s (fun _ => k) v habs).2
    have hd : ∀ k' ∈ rest.map Prod.fst, k' ∉ (s.Add (fun _ => k) v).1.set.keys := by
      intro k' hk' hc
      simp only [SyncMap.keys, hent, List.map_cons, List.mem_cons] at hc
      rcases hc with rfl | hc
      · exact nd.1 hk'
      · exact hdisj k' (List.mem_cons_of_mem _ hk') hc
    simp only [addAll, ih _ nd.2 hd, hent, List.reverse_cons, List.append_assoc,
      List.singleton_append]

theorem Iterator.after_fresh (items : List (Item α)) (n : Nat) :
    (Iterator.mk items 0).after n = ⟨items, min n items.length⟩ := by
  induction n with
  | zero => simp [Iterator.after]
  | succ n ih =>
    rw [Iterator.after, ih]
    by_cases h : n < items.length
    · have h1 : min n items.length = n := Nat.min_eq_left (Nat.le_of_lt h)
      have h2 : min (n + 1) items.length = n + 1 := Nat.min_eq_left h
      simp [Iterator.call, h1, h2, h]
    · have h1 : min n items.length = items.length := Nat.min_eq_right (Nat.le_of_not_lt h)
      have h2 : min (n + 1) items.length = items.length :=
        Nat.min_eq_right (Nat.le_succ_of_le (Nat.le_of_not_lt h))
      simp [Iterator.call, h1, h2]

theorem Iterator.nthCall_fresh_lt (items : List (Item α)) (i : Nat) (h : i < items.length) :
    (Iterator.mk items 0).nthCall i = (items.get ⟨i, h⟩, decide (i + 1 = items.length)) := by
  have h1 : min i items.length = i := Nat.min_eq_left (Nat.le_of_lt h)
  simp [Iterator.nthCall, Iterator.after_fresh, Iterator.call, h1, h]

theorem Iterator.nthCall_fresh_ge (items : List (Item α)) (i : Nat) (h : items.length ≤ i) :
    (Iterator.mk items 0).nthCall i = (none, true) := by
  have h1 : min i items.length = items.length := Nat.min_eq_right h
  simp [Iterator.nthCall, Iterator.after_fresh, Iterator.call, h1]

theorem Iterator.items_of_calls (items : List (Item α)) :
    (List.range items.length).map (fun i => ((Iterator.mk items 0).nthCall i).1) = items := by
  apply List.ext_getElem
  · simp
  · intro i h1 h2
    simp only [List.getElem_map, List.getElem_range]
    rw [Iterator.nthCall_fresh_lt items i h2]
    rfl

theorem Set.Iterator_eq (ordCount ordRange : RangeOrder α) (s : Set α) :
    s.Iterator ordCount ordRange
      = some (s, ⟨(ordRange.visit s.set.entries).map Prod.snd, 0⟩) := by
  obtain ⟨items, hitems, hval⟩ := Set.getItemsSlice_eq ordCount ordRange s
  simp only [Set.Iterator, hitems, hval]

theorem Set.snapshot_length (ordRange : RangeOrder α) (s : Set α) :
    ((ordRange.visit s.set.entries).map Prod.snd).length = s.set.entries.length := by
  rw [List.length_map, (ordRange.perm s.set.entries).length_eq]

theorem Iterator.call_after_last (it : Iterator α) (h : it.call.1.2 = true) :
    it.call.2.call = ((none, true), it.call.2) := by
  by_cases hlt : it.c < it.items.length
  · simp only [Iterator.call, hlt, dite_true, decide_eq_true_eq] at h
    have hge : ¬ it.c + 1 < it.items.length := by omega
    simp [Iterator.call, hlt, hge, h]
  · simp only [Iterator.call, hlt, dite_false, decide_eq_true_eq] at h
    simp [Iterator.call, hlt, h]

theorem Iterator.after_last (it : Iterator α) (i : Nat) (h : (it.nthCall i).2 = true) (k : Nat) :
    it.after (i + 1 + k) = it.after (i + 1) ∧ it.nthCall (i + 1 + k) = (none, true) := by
  have hfix : (it.after (i + 1)).call = ((none, true), it.after (i + 1)) :=
    Iterator.call_after_last (it.after i) h
  induction k with
  | zero => exact ⟨rfl, by rw [Nat.add_zero, Iterator.nthCall, hfix]⟩
  | succ k ih =>
    have hstate : it.after (i + 1 + (k + 1)) = it.after (i + 1) := by
      rw [← Nat.add_assoc, Iterator.after, ih.1, hfix]
    exact ⟨hstate, by rw [Iterator.nthCall, hstate, hfix]⟩

theorem Set.eq_of_entries {s t : Set α} (h : s.set.entries = t.set.entries) : s = t := by
  obtain ⟨⟨es, hs⟩⟩ := s
  obtain ⟨⟨et, ht⟩⟩ := t
  cases h
  rfl

theorem filter_ne_of_not_mem {key : String} {l : List (String × Item α)}
    (h : key ∉ l.map Prod.fst) : l.filter (fun e => decide (e.1 ≠ key)) = l := by
  apply List.filter_eq_self.mpr
  intro e he
  exact decide_eq_true (fun c => h (List.mem_map.mpr ⟨e, he, c⟩))

theorem filter_ne_length {key : String} {l : List (String × Item α)}
    (nd : (l.map Prod.fst).Nodup) (h : key ∈ l.map Prod.fst) :
    (l.filter (fun e => decide (e.1 ≠ key))).length + 1 = l.length := by
  induction l with
  | nil => cases h
  | cons e rest ih =>
    obtain ⟨k, w⟩ := e
    rw [List.map_cons, List.nodup_cons] at nd
    by_cases hk : k = key
    · subst hk
      have hd : decide ((k, w).1 ≠ k) = false := decide_eq_false (not_not.mpr rfl)
      rw [List.filter_cons_of_neg (by simp [hd]), filter_ne_of_not_mem nd.1, List.length_cons]
    · have hd : decide ((k, w).1 ≠ key) = true := decide_eq_true hk
      have hin : key ∈ rest.map Prod.fst := by
        rcases List.mem_cons.mp h with heq | hin
        · exact absurd heq.symm hk
        · exact hin
      rw [List.filter_cons_of_pos (by simp [hd]), List.length_cons, List.length_cons,
        ih nd.2 hin]

theorem Set.Add_entries_of_not_mem {s : Set α} {key : Key} (v : Item α)
    (h : key () ∉ s.set.keys) : (s.Add key v).1.set.entries = (key (), v) :: s.set.entries :=
  (Set.Add_of_not_mem v h).2

theorem Set.Add_err_none_iff (s : Set α) (key : Key) (v : Item α) :
    (s.Add key v).2 = none ↔ key () ∉ s.set.keys := by
  by_cases h : key () ∈ s.set.keys
  · rw [Set.Add_of_mem v h]
    simp [h]
  · simp [(Set.Add_of_not_mem v h).1, h]

theorem Set.Pop_err_none_iff (s : Set α) (key : Key) :
    (s.Pop key).2.2 = none ↔ key () ∈ s.set.keys := by
  by_cases h : key () ∈ s.set.keys
  · obtain ⟨v, hv⟩ := SyncMap.exists_entry_of_mem_keys h
    rw [Set.Pop_of_mem_entries hv]
    simp [h]
  · rw [Set.Pop_of_not_mem h]
    simp [h]

theorem Set.Pop_entries (s : Set α) (key : Key) (h : key () ∈ s.set.keys) :
    (s.Pop key).1.set.entries = s.set.entries.filter (fun e => decide (e.1 ≠ key ())) := by
  obtain ⟨v, hv⟩ := SyncMap.exists_entry_of_mem_keys h
  rw [Set.Pop_of_mem_entries hv]
  rfl

theorem Set.Add_keys_of_not_mem {s : Set α} {key : Key} (v : Item α)
    (h : key () ∉ s.set.keys) : (s.Add key v).1.set.keys = key () :: s.set.keys := by
  simp only [SyncMap.keys, Set.Add_entries_of_not_mem v h, List.map_cons]

theorem Set.peek_count_eq_of_entries {s t : Set α}
    (hl : ∀ k, lookupEntry k t.set.entries = lookupEntry k s.set.entries)
    (hn : t.set.entries.length = s.set.entries.length) (ord : RangeOrder α) :
    (∀ key : Key, (t.Peek key).2 = (s.Peek key).2) ∧ (t.Count ord).2 = (s.Count ord).2 :=
  ⟨fun key => Set.peek_eq_of_lookup_eq (hl (key ())), by simp only [Set.Count_eq, hn]⟩

theorem lookupEntry_swap (k ka kb : String) (va vb : Item α) (l : List (String × Item α))
    (h : ka ≠ kb) :
    lookupEntry k ((kb, vb) :: (ka, va) :: l) = lookupEntry k ((ka, va) :: (kb, vb) :: l) := by
  by_cases h1 : ka = k
  · have h2 : ¬ kb = k := fun c => h (h1.trans c.symm)
    simp only [lookupEntry, h1, h2, if_true, if_false]
  · by_cases h2 : kb = k
    · simp only [lookupEntry, h1, h2, if_true, if_false]
    · simp only [lookupEntry, h1, h2, if_false]

theorem Iterator.after_succ_call (it : Iterator α) (n : Nat) :
    it.after (n + 1) = it.call.2.after n := by
  induction n with
  | zero => rfl
  | succ n ih => rw [Iterator.after, ih, Iterator.after]

theorem Iterator.nthCall_succ (it : Iterator α) (n : Nat) :
    it.nthCall (n + 1) = it.call.2.nthCall n := by
  rw [Iterator.nthCall, Iterator.after_succ_call, Iterator.nthCall]

theorem Iterator.range_map_nthCall (it : Iterator α) (k : Nat) :
    (List.range (k + 1)).map it.nthCall = it.call.1 :: (List.range k).map it.call.2.nthCall := by
  rw [List.range_succ_eq_map, List.map_cons, List.map_map]
  congr 1
  apply List.map_congr_left
  intro i _
  exact Iterator.nthCall_succ it i

theorem Client.produced_eq (p : Nat) (cs : List (Call α)) (w : Client α) (it : Iterator α)
    (h : w.producers[p]? = some it) :
    Client.produced p w cs
      = some ((List.range (cs.countP (Call.isNext p))).map it.nthCall) := by
  induction cs generalizing w it with
  | nil => rfl
  | cons c cs ih =>
    cases c with
    | add key item =>
      simp only [Client.produced, Client.step, ih ⟨(w.set.Add key item).1, w.producers⟩ it h,
        Call.isNext, List.countP_cons]
      rfl
    | pop key =>
      simp only [Client.produced, Client.step, ih ⟨(w.set.Pop key).1, w.producers⟩ it h,
        Call.isNext, List.countP_cons]
      rfl
    | clear =>
      simp only [Client.produced, Client.step, ih ⟨w.set.Clear, w.producers⟩ it h,
        Call.isNext, List.countP_cons]
      rfl
    | iterator ordCount ordRange =>
      have hlt : p < w.producers.length := (List.getElem?_eq_some.mp h).1
      have h2 : (w.producers ++ [(⟨(ordRange.visit w.set.set.entries).map Prod.snd, 0⟩ :
          Iterator α)])[p]? = some it := by
        rw [List.getElem?_append_left hlt]
        exact h
      have hrec := ih ⟨w.set, w.producers ++
        [⟨(ordRange.visit w.set.set.entries).map Prod.snd, 0⟩]⟩ it h2
      simp only [Client.produced, Client.step, Set.Iterator_eq, hrec,
        Call.isNext, List.countP_cons]
      rfl
    | next q =>
      by_cases hq : q = p
      · subst hq
        have hlt : q < w.producers.length := (List.getElem?_eq_some.mp h).1
        have h2 : (w.producers.set q it.call.2)[q]? = some it.call.2 := by
          rw [List.getElem?_set_self hlt]
        have hrec := ih ⟨w.set, w.producers.set q it.call.2⟩ it.call.2 h2
        simp only [Client.produced, Client.step, h, Iterator.invoke, hrec,
          Call.isNext, List.countP_cons, decide_True, if_true, Option.toList,
          List.singleton_append, Iterator.range_map_nthCall]
      · cases hw : w.producers[q]? with
        | none =>
          simp only [Client.produced, Client.step, hw, ih w it h, Call.isNext,
            List.countP_cons, hq, decide_False]
          rfl
        | some other =>
          have h2 : (w.producers.set q other.call.2)[p]? = some it := by
            rw [List.getElem?_set_ne hq]
            exact h
          have hrec := ih ⟨w.set, w.producers.set q other.call.2⟩ it h2
          simp only [Client.produced, Client.step, hw, Iterator.invoke, hrec,
            Call.isNext, List.countP_cons, hq, decide_False]
          rfl

theorem Pool.step_of_none (c : Pool α) (i : Nat) (h : c.goroutines[i]? = none) :
    c.step i = c := by
  simp only [Pool.step, h]

theorem Pool.step_of_stuck (c : Pool α) (i : Nat) (g : Goroutine α)
    (h : c.goroutines[i]? = some g) (hs : g.step c.shared = none) : c.step i = c := by
  simp only [Pool.step, h, hs]

theorem Pool.step_of_add (c : Pool α) (i : Nat) (key : Key) (w : Item α)
    (h : c.goroutines[i]? = some (Goroutine.add key w)) :
    c.step i = ⟨⟨c.shared.locked, ((Set.mk c.shared.set).Add key w).1.set⟩,
      c.goroutines.set i (Goroutine.addReturned ((Set.mk c.shared.set).Add key w).2)⟩ := by
  simp only [Pool.step, h, Goroutine.step]

theorem AddRaceInv.init (s : Set α) (key : Key) (vs : List (Item α)) :
    AddRaceInv s key vs (addRace s key vs) := by
  refine ⟨by simp [addRace], Or.inl ⟨rfl, ?_⟩⟩
  intro j w hj
  simp [addRace, List.getElem?_map, hj]

theorem AddRaceInv.step {s : Set α} {key : Key} {vs : List (Item α)} {c : Pool α}
    (habs : key () ∉ s.set.keys) (hinv : AddRaceInv s key vs c) (i0 : Nat) :
    AddRaceInv s key vs (c.step i0) := by
  obtain ⟨hlen, hcase⟩ := hinv
  cases hg : c.goroutines[i0]? with
  | none =>
    rw [Pool.step_of_none c i0 hg]
    exact ⟨hlen, hcase⟩
  | some g =>
    have hlt : i0 < c.goroutines.length := (List.getElem?_eq_some.mp hg).1
    have hltv : i0 < vs.length := hlen ▸ hlt
    have hv0 : vs[i0]? = some vs[i0] := List.getElem?_eq_getElem hltv
    rcases hcase with ⟨hset, hall⟩ | ⟨i, v, hvi, hgi, hmem, hothers⟩
    · have hg0 := hall i0 _ hv0
      have habs2 : key () ∉ (Set.mk c.shared.set).set.keys := by
        rw [hset]
        exact habs
      rw [Pool.step_of_add c i0 key _ hg0]
      refine ⟨by rw [List.length_set]; exact hlen, Or.inr ⟨i0, vs[i0], hv0, ?_, ?_, ?_⟩⟩
      · rw [(Set.Add_err_none_iff _ key _).mpr habs2]
        exact List.getElem?_set_self hlt
      · show (key (), vs[i0]) ∈ ((Set.mk c.shared.set).Add key vs[i0]).1.set.entries
        rw [Set.Add_entries_of_not_mem _ habs2]
        exact List.mem_cons_self _ _
      · intro j w hj hw
        left
        show (c.goroutines.set i0 _)[j]? = _
        rw [List.getElem?_set_ne (Ne.symm hj)]
        exact hall j w hw
    · have hpres : key () ∈ (Set.mk c.shared.set).set.keys :=
        List.mem_map.mpr ⟨(key (), v), hmem, rfl⟩
      by_cases hi : i0 = i
      · have hgg : g = Goroutine.addReturned none := by
          rw [hi, hgi] at hg
          exact (Option.some.inj hg).symm
        rw [Pool.step_of_stuck c i0 g hg (by rw [hgg]; rfl)]
        exact ⟨hlen, Or.inr ⟨i, v, hvi, hgi, hmem, hothers⟩⟩
      · rcases hothers i0 _ hi hv0 with hadd | hret
        · rw [Pool.step_of_add c i0 key _ hadd, Set.Add_of_mem _ hpres]
          refine ⟨by rw [List.length_set]; exact hlen, Or.inr ⟨i, v, hvi, ?_, hmem, ?_⟩⟩
          · show (c.goroutines.set i0 _)[i]? = _
            rw [List.getElem?_set_ne hi]
            exact hgi
          · intro j w hj hw
            show (c.goroutines.set i0 _)[j]? = _ ∨ (c.goroutines.set i0 _)[j]? = _
            by_cases hj0 : j = i0
            · right
              rw [hj0]
              exact List.getElem?_set_self hlt
            · rw [List.getElem?_set_ne (Ne.symm hj0)]
              exact hothers j w hj hw
        · have hgg : g = Goroutine.addReturned (some Error.ErrAlreadyExists) := by
            rw [hret] at hg
            exact (Option.some.inj hg).symm
          rw [Pool.step_of_stuck c i0 g hg (by rw [hgg]; rfl)]
          exact ⟨hlen, Or.inr ⟨i, v, hvi, hgi, hmem, hothers⟩⟩

theorem AddRaceInv.run {s : Set α} {key : Key} {vs : List (Item α)}
    (habs : key () ∉ s.set.keys) (sched : List Nat) (c : Pool α)
    (hinv : AddRaceInv s key vs c) : AddRaceInv s key vs (c.run sched) := by
  induction sched generalizing c with
  | nil => exact hinv
  | cons i rest ih => exact ih (c.step i) (AddRaceInv.step habs hinv i)

theorem Pool.pop_alone (s : Set α) (key : Key) :
    ((popRace s key 1).run [0, 0, 0, 0, 0, 0]).shared = ⟨false, (s.Pop key).1.set⟩ ∧
    ((popRace s key 1).run [0, 0, 0, 0, 0, 0]).goroutines.map Goroutine.popResult
      = [some (s.Pop key).2] := by
  by_cases h : key () ∈ s.set.keys
  · obtain ⟨v, hv⟩ := SyncMap.exists_entry_of_mem_keys h
    rw [Set.Pop_of_mem_entries hv]
    simp [popRace, Pool.run, Pool.step, Goroutine.step, SyncMap.Load_of_mem_entries hv,
      Goroutine.popResult]
  · rw [Set.Pop_of_not_mem h]
    simp [popRace, Pool.run, Pool.step, Goroutine.step, SyncMap.Load_of_not_mem h,
      Goroutine.popResult]

theorem Pool.add_alone (s : Set α) (key : Key) (v : Item α) :
    ((addRace s key [v]).run [0]).shared = ⟨false, (s.Add key v).1.set⟩ ∧
    ((addRace s key [v]).run [0]).goroutines.map Goroutine.addResult
      = [some (s.Add key v).2] := by
  simp [addRace, Pool.run, Pool.step, Goroutine.step, Goroutine.addResult]

end Lemmas

/-! ## Claims -/

section Claims

variable {α : Type}

/-- C1: when the accessor's key has no entry, `Add` returns the nil error, `Peek`
of that key then returns the added value with a nil error, and `Peek` of every
other key returns what it returned before. -/
theorem add_absent_inserts (s : Set α) (key : Key) (v : Item α) (h : key () ∉ s.set.keys) :
    (s.Add key v).2 = none ∧
    ((s.Add key v).1.Peek key).2 = (v, none) ∧
    ∀ key' : Key, key' () ≠ key () → ((s.Add key v).1.Peek key').2 = (s.Peek key').2 := by
  obtain ⟨herr, hent⟩ := Set.Add_of_not_mem v h
  refine ⟨herr, ?_, ?_⟩
  · have hm : (key (), v) ∈ (s.Add key v).1.set.entries := by
      rw [hent]
      exact List.mem_cons_self _ _
    rw [Set.Peek_of_mem_entries hm]
  · intro key' hne
    apply Set.peek_eq_of_lookup_eq
    rw [hent]
    simp only [lookupEntry, Ne.symm hne, if_false]

theorem add_absent_inserts_witness :
    key4 () ∉ load.set.keys ∧ (load.Add key4 (some 4)).2 = none ∧
    ((load.Add key4 (some 4)).1.Peek key4).2 = (some 4, none) ∧
    ((load.Add key4 (some 4)).1.Peek key1).2 = (load.Peek key1).2 :=
  ⟨by decide, (add_absent_inserts load key4 (some 4) (by decide)).1,
    (add_absent_inserts load key4 (some 4) (by decide)).2.1,
    (add_absent_inserts load key4 (some 4) (by decide)).2.2 key1 (by decide)⟩

/-- C2: `Add` returns a non-nil error exactly when the key already has an entry;
that error is `ErrAlreadyExists` and the set is left as it was, so every `Peek`
and `Count` returns what it returned before; `Add` returns no other error. -/
theorem add_error_iff_present (s : Set α) (key : Key) (v : Item α) :
    ((s.Add key v).2 ≠ none ↔ key () ∈ s.set.keys) ∧
    ((s.Add key v).2 ≠ none →
      (s.Add key v).2 = some Error.ErrAlreadyExists ∧ (s.Add key v).1 = s ∧
      (∀ key' : Key, ((s.Add key v).1.Peek key').2 = (s.Peek key').2) ∧
      (∀ ord : RangeOrder α, ((s.Add key v).1.Count ord).2 = (s.Count ord).2)) ∧
    ((s.Add key v).2 = none ∨ (s.Add key v).2 = some Error.ErrAlreadyExists) := by
  by_cases h : key () ∈ s.set.keys
  · rw [Set.Add_of_mem v h]
    simp [h]
  · have herr := (Set.Add_of_not_mem v h).1
    simp [herr, h]

theorem add_error_iff_present_witness :
    (load.Add key1 (some 7)).2 ≠ none ∧
    (load.Add key1 (some 7)).2 = some Error.ErrAlreadyExists ∧
    (load.Add key1 (some 7)).1 = load :=
  ⟨by decide, ((add_error_iff_present load key1 (some 7)).2.1 (by decide)).1,
    ((add_error_iff_present load key1 (some 7)).2.1 (by decide)).2.1⟩

/-- C3: uniqueness. If `Add(k, v1)` succeeds, the `Add(k, v2)` that follows fails
with `ErrAlreadyExists` and the `Peek(k)` after it still returns `v1`, whatever
`v2` is. -/
theorem add_twice_keeps_first (s : Set α) (key : Key) (v1 v2 : Item α)
    (h : (s.Add key v1).2 = none) :
    ((s.Add key v1).1.Add key v2).2 = some Error.ErrAlreadyExists ∧
    (((s.Add key v1).1.Add key v2).1.Peek key).2 = (v1, none) := by
  have habs : key () ∉ s.set.keys := by
    intro hc
    rw [Set.Add_of_mem v1 hc] at h
    cases h
  have hent := (Set.Add_of_not_mem v1 habs).2
  have hm : (key (), v1) ∈ (s.Add key v1).1.set.entries := by
    rw [hent]
    exact List.mem_cons_self _ _
  have hk : key () ∈ (s.Add key v1).1.set.keys :=
    List.mem_map.mpr ⟨(key (), v1), hm, rfl⟩
  rw [Set.Add_of_mem v2 hk]
  exact ⟨rfl, by rw [Set.Peek_of_mem_entries hm]⟩

theorem add_twice_keeps_first_witness :
    ((emptySet : Set Int).Add key1 (some 1)).2 = none ∧
    (((emptySet : Set Int).Add key1 (some 1)).1.Add key1 (some 2)).2
      = some Error.ErrAlreadyExists ∧
    ((((emptySet : Set Int).Add key1 (some 1)).1.Add key1 (some 2)).1.Peek key1).2
      = (some 1, none) :=
  ⟨by decide, add_twice_keeps_first emptySet key1 (some 1) (some 2) (by decide)⟩

/-- C4: `Peek` of a key that has an entry with value `v` returns `v` and the nil
error; `Peek` of a key without entry returns the nil item and
`ErrKeyDoesNotExist`; the error is non-nil exactly when the key has no entry. -/
theorem peek_present_or_absent (s : Set α) (key : Key) :
    (∀ v : Item α, (key (), v) ∈ s.set.entries → (s.Peek key).2 = (v, none)) ∧
    (key () ∉ s.set.keys → (s.Peek key).2 = (none, some Error.ErrKeyDoesNotExist)) ∧
    ((s.Peek key).2.2 ≠ none ↔ key () ∉ s.set.keys) := by
  refine ⟨?_, ?_, Set.Peek_err_iff s key⟩
  · intro v hv
    rw [Set.Peek_of_mem_entries hv]
  · intro h
    rw [Set.Peek_of_not_mem h]

theorem peek_present_or_absent_witness :
    (key1 (), some 1) ∈ load.set.entries ∧ (load.Peek key1).2 = (some 1, none) ∧
    key4 () ∉ load.set.keys ∧ (load.Peek key4).2 = (none, some Error.ErrKeyDoesNotExist) :=
  ⟨by decide, (peek_present_or_absent load key1).1 (some 1) (by decide),
    by decide, (peek_present_or_absent load key4).2.1 (by decide)⟩

/-- C5: `Pop` of a key that has an entry with value `v` returns `v` and the nil
error, the `Peek` of that key that follows fails with `ErrKeyDoesNotExist`, and
`Peek` of every other key returns what it returned before the `Pop`. -/
theorem pop_present_removes (s : Set α) (key : Key) (v : Item α)
    (h : (key (), v) ∈ s.set.entries) :
    (s.Pop key).2 = (v, none) ∧
    ((s.Pop key).1.Peek key).2 = (none, some Error.ErrKeyDoesNotExist) ∧
    ∀ key' : Key, key' () ≠ key () → ((s.Pop key).1.Peek key').2 = (s.Peek key').2 := by
  rw [Set.Pop_of_mem_entries h]
  refine ⟨rfl, ?_, ?_⟩
  · have habs : key () ∉ (⟨s.set.Delete (key ())⟩ : Set α).set.keys :=
      lookupEntry_eq_none.mp (lookupEntry_filter_self (key ()) s.set.entries)
    rw [Set.Peek_of_not_mem habs]
  · intro key' hne
    apply Set.peek_eq_of_lookup_eq
    exact lookupEntry_filter_ne hne s.set.entries

theorem pop_present_removes_witness :
    (key1 (), some 1) ∈ load.set.entries ∧ (load.Pop key1).2 = (some 1, none) ∧
    ((load.Pop key1).1.Peek key1).2 = (none, some Error.ErrKeyDoesNotExist) ∧
    ((load.Pop key1).1.Peek key2).2 = (load.Peek key2).2 :=
  ⟨by decide, (pop_present_removes load key1 (some 1) (by decide)).1,
    (pop_present_removes load key1 (some 1) (by decide)).2.1,
    (pop_present_removes load key1 (some 1) (by decide)).2.2 key2 (by decide)⟩

/-- C6: `Pop` of a key without entry returns the nil item and
`ErrKeyDoesNotExist` and leaves the set as it was, so every `Peek` and `Count`
returns what it returned before; `Pop` returns a non-nil error exactly when the
key has no entry. -/
theorem pop_absent_fails (s : Set α) (key : Key) :
    (key () ∉ s.set.keys →
      (s.Pop key).2 = (none, some Error.ErrKeyDoesNotExist) ∧ (s.Pop key).1 = s ∧
      (∀ key' : Key, ((s.Pop key).1.Peek key').2 = (s.Peek key').2) ∧
      (∀ ord : RangeOrder α, ((s.Pop key).1.Count ord).2 = (s.Count ord).2)) ∧
    ((s.Pop key).2.2 ≠ none ↔ key () ∉ s.set.keys) := by
  constructor
  · intro h
    rw [Set.Pop_of_not_mem h]
    simp
  · constructor
    · intro h hc
      obtain ⟨v, hv⟩ := SyncMap.exists_entry_of_mem_keys hc
      rw [Set.Pop_of_mem_entries hv] at h
      exact h rfl
    · intro h
      rw [Set.Pop_of_not_mem h]
      simp

theorem pop_absent_fails_witness :
    key4 () ∉ load.set.keys ∧
    (load.Pop key4).2 = (none, some Error.ErrKeyDoesNotExist) ∧ (load.Pop key4).1 = load :=
  ⟨by decide, ((pop_absent_fails load key4).1 (by decide)).1,
    ((pop_absent_fails load key4).1 (by decide)).2.1⟩

/-- C7: `Peek`, `Count`, `Iterator` and every invocation of a producer hand back
the set they were given (and `Iterator` does return a producer); in particular
two `Peek`s of the same key in a row return the same item and error. -/
theorem read_calls_leave_set (s : Set α) (key : Key) (ord ordCount ordRange : RangeOrder α)
    (it : Iterator α) :
    (s.Peek key).1 = s ∧ (s.Count ord).1 = s ∧
    (∃ p : Iterator α, s.Iterator ordCount ordRange = some (s, p)) ∧
    (Iterator.invoke s it).1 = s ∧
    ((s.Peek key).1.Peek key).2 = (s.Peek key).2 := by
  refine ⟨rfl, rfl, ?_, rfl, rfl⟩
  obtain ⟨items, hitems⟩ := Set.getItemsSlice_eq ordCount ordRange s
  exact ⟨⟨items, 0⟩, by simp only [Set.Iterator, hitems]⟩

/-- C8: `Count` of the empty set is 0, and after adding pairwise-distinct keys one
by one to the empty set `Count` returns how many keys were added. -/
theorem count_matches_cardinality (ord : RangeOrder α) (kvs : List (String × Item α))
    (h : (kvs.map Prod.fst).Nodup) :
    ((emptySet : Set α).Count ord).2 = 0 ∧ ((addAll emptySet kvs).Count ord).2 = kvs.length := by
  constructor
  · rw [Set.Count_eq]
    rfl
  · have hent := addAll_entries kvs (emptySet : Set α) h (fun _ _ hc => by cases hc)
    rw [Set.Count_eq]
    simp only [hent, List.length_append, List.length_reverse]
    rfl

theorem count_matches_cardinality_witness :
    ([("key1", (some 1 : Item Int)), ("key2", some 2)].map Prod.fst).Nodup ∧
    ((emptySet : Set Int).Count RangeOrder.reversed).2 = 0 ∧
    ((addAll emptySet [("key1", (some 1 : Item Int)), ("key2", some 2)]).Count
      RangeOrder.reversed).2 = 2 :=
  ⟨by decide, count_matches_cardinality RangeOrder.reversed
    [("key1", (some 1 : Item Int)), ("key2", some 2)] (by decide)⟩

/-- C9: after `Clear`, from any set, `Count` returns 0 and `Peek` of every key
fails with `ErrKeyDoesNotExist`; `Clear` has no error result; clearing twice
leaves the same set as clearing once. -/
theorem clear_resets (s : Set α) (ord : RangeOrder α) (key : Key) :
    (s.Clear.Count ord).2 = 0 ∧
    (s.Clear.Peek key).2 = (none, some Error.ErrKeyDoesNotExist) ∧
    s.Clear.Clear = s.Clear := by
  refine ⟨?_, ?_, rfl⟩
  · rw [Set.Count_eq]
    rfl
  · have habs : key () ∉ s.Clear.set.keys := fun hc => by cases hc
    rw [Set.Peek_of_not_mem habs]

/-- C10: iterator completeness. `Iterator` returns a producer; with `n` the number
`Count` returns, the items of its first `n` invocations are, as a multiset, the
values stored in the set, and every later invocation returns the nil item. -/
theorem iterator_complete (s : Set α) (ord ordCount ordRange : RangeOrder α) :
    ∃ it : Iterator α, s.Iterator ordCount ordRange = some (s, it) ∧
      Multiset.ofList ((List.range (s.Count ord).2).map (fun i => (it.nthCall i).1))
        = Multiset.ofList (s.set.entries.map Prod.snd) ∧
      ∀ i, (s.Count ord).2 ≤ i → (it.nthCall i).1 = none := by
  obtain ⟨items, hitems, hval⟩ := Set.getItemsSlice_eq ordCount ordRange s
  have hlen : items.length = s.set.entries.length := by
    rw [hval, List.length_map, (ordRange.perm s.set.entries).length_eq]
  refine ⟨⟨items, 0⟩, by simp only [Set.Iterator, hitems], ?_, ?_⟩
  · rw [Set.Count_eq]
    show Multiset.ofList ((List.range s.set.entries.length).map _) = _
    rw [← hlen, Iterator.items_of_calls items, hval]
    exact Multiset.coe_eq_coe.mpr ((ordRange.perm s.set.entries).map Prod.snd)
  · intro i hi
    rw [Set.Count_eq] at hi
    rw [Iterator.nthCall_fresh_ge items i (hlen ▸ hi)]

theorem iterator_complete_witness :
    ∃ it : Iterator Int, load.Iterator RangeOrder.stored RangeOrder.reversed = some (load, it) ∧
      Multiset.ofList ((List.range (load.Count RangeOrder.stored).2).map
          (fun i => (it.nthCall i).1))
        = Multiset.ofList (load.set.entries.map Prod.snd) ∧
      ∀ i, (load.Count RangeOrder.stored).2 ≤ i → (it.nthCall i).1 = none :=
  iterator_complete load RangeOrder.stored RangeOrder.stored RangeOrder.reversed

/-- C11: last-item flag. For a set with `n ≥ 1` entries (`n` what `Count`
returns) `Iterator` returns a producer whose invocation number `i` (counted from
1) returns `lastItem = false` for every `i < n` and `lastItem = true` for
`i = n`, the invocation that returns the final value. -/
theorem last_item_flag (s : Set α) (ord ordCount ordRange : RangeOrder α)
    (h : 1 ≤ (s.Count ord).2) :
    ∃ it : Iterator α, s.Iterator ordCount ordRange = some (s, it) ∧
      (∀ i, 1 ≤ i → i < (s.Count ord).2 → (it.nthCall (i - 1)).2 = false) ∧
      (it.nthCall ((s.Count ord).2 - 1)).2 = true ∧
      (it.nthCall ((s.Count ord).2 - 1)).1
        = ((ordRange.visit s.set.entries).map Prod.snd).getLast?.join := by
  rw [Set.Count_eq] at h ⊢
  have hlen := Set.snapshot_length ordRange s
  refine ⟨_, Set.Iterator_eq ordCount ordRange s, ?_, ?_, ?_⟩
  · intro i h1 h2
    have hi : i - 1 < ((ordRange.visit s.set.entries).map Prod.snd).length := by
      rw [hlen]
      show i - 1 < s.set.entries.length
      omega
    rw [Iterator.nthCall_fresh_lt _ _ hi]
    exact decide_eq_false (by
      have : i < s.set.entries.length := h2
      rw [hlen]
      omega)
  · have hi : s.set.entries.length - 1
        < ((ordRange.visit s.set.entries).map Prod.snd).length := by
      rw [hlen]
      have : 1 ≤ s.set.entries.length := h
      omega
    show ((Iterator.mk _ 0).nthCall (s.set.entries.length - 1)).2 = true
    rw [Iterator.nthCall_fresh_lt _ _ hi]
    exact decide_eq_true (by
      have : 1 ≤ s.set.entries.length := h
      rw [hlen]
      omega)
  · have hi : s.set.entries.length - 1
        < ((ordRange.visit s.set.entries).map Prod.snd).length := by
      rw [hlen]
      have : 1 ≤ s.set.entries.length := h
      omega
    show ((Iterator.mk _ 0).nthCall (s.set.entries.length - 1)).1 = _
    rw [Iterator.nthCall_fresh_lt _ _ hi]
    simp only [List.getLast?_eq_getElem?, hlen, List.get_eq_getElem]
    rw [List.getElem?_eq_getElem hi]
    rfl

theorem last_item_flag_witness :
    1 ≤ (load.Count RangeOrder.stored).2 ∧
    ∃ it : Iterator Int, load.Iterator RangeOrder.stored RangeOrder.reversed = some (load, it) ∧
      (∀ i, 1 ≤ i → i < (load.Count RangeOrder.stored).2 → (it.nthCall (i - 1)).2 = false) ∧
      (it.nthCall ((load.Count RangeOrder.stored).2 - 1)).2 = true ∧
      (it.nthCall ((load.Count RangeOrder.stored).2 - 1)).1
        = ((RangeOrder.reversed.visit load.set.entries).map Prod.snd).getLast?.join :=
  ⟨by decide,
    last_item_flag load RangeOrder.stored RangeOrder.stored RangeOrder.reversed (by decide)⟩

/-- C12: for a set without entries `Iterator` returns a producer whose very first
invocation returns the nil item and `lastItem = true`. -/
theorem iterator_of_empty_set (s : Set α) (ordCount ordRange : RangeOrder α)
    (h : s.set.entries = []) :
    ∃ it : Iterator α, s.Iterator ordCount ordRange = some (s, it) ∧
      it.nthCall 0 = (none, true) := by
  refine ⟨_, Set.Iterator_eq ordCount ordRange s, ?_⟩
  apply Iterator.nthCall_fresh_ge
  rw [Set.snapshot_length, h]
  exact Nat.le_refl 0

theorem iterator_of_empty_set_witness :
    (emptySet : Set Int).set.entries = [] ∧
    ∃ it : Iterator Int,
      (emptySet : Set Int).Iterator RangeOrder.stored RangeOrder.reversed
        = some (emptySet, it) ∧
      it.nthCall 0 = (none, true) :=
  ⟨rfl, iterator_of_empty_set emptySet RangeOrder.stored RangeOrder.reversed rfl⟩

/-- C13: idempotent terminal state. For the producer `Iterator` returns, once an
invocation has returned `lastItem = true`, every later invocation returns the nil
item and `lastItem = true` and leaves the closure (its cursor `c` and its items)
as it was. -/
theorem producer_terminal_state (s : Set α) (ordCount ordRange : RangeOrder α) :
    ∃ it : Iterator α, s.Iterator ordCount ordRange = some (s, it) ∧
      ∀ i j, (it.nthCall i).2 = true → i < j →
        it.nthCall j = (none, true) ∧ it.after (j + 1) = it.after j := by
  refine ⟨_, Set.Iterator_eq ordCount ordRange s, ?_⟩
  intro i j hlast hij
  obtain ⟨k, rfl⟩ : ∃ k, j = i + 1 + k := ⟨j - (i + 1), by omega⟩
  have h1 := Iterator.after_last _ i hlast k
  have h2 := Iterator.after_last _ i hlast (k + 1)
  exact ⟨h1.2, by rw [h1.1, Nat.add_assoc (i + 1) k 1, h2.1]⟩

theorem producer_terminal_state_witness :
    ∃ it : Iterator Int, load.Iterator RangeOrder.stored RangeOrder.reversed = some (load, it) ∧
      ∀ i j, (it.nthCall i).2 = true → i < j →
        it.nthCall j = (none, true) ∧ it.after (j + 1) = it.after j :=
  producer_terminal_state load RangeOrder.stored RangeOrder.reversed

/-- C17: in a sequential run `getItemsSlice` does not fail. The slice has exactly
`Count()` slots, the `Range` callback ends with `c = Count()` after writing the
slots `0 .. Count() - 1` (no write is out of range), every slot holds the value of
the entry visited at that position, `Iterator` returns a producer, and a producer
whose cursor is not below `len(items)` returns without reading `items`. -/
theorem iterator_construction_infallible (s : Set α) (ord ordCount ordRange : RangeOrder α)
    (it : Iterator α) :
    (∃ items : List (Item α), s.getItemsSlice ordCount ordRange = some (s, items) ∧
      items.length = (s.Count ord).2 ∧
      s.set.Range ordRange
        (fun (st : List (Item α) × Nat) (_key : String) (value : Item α) =>
          if st.2 < st.1.length then some ((st.1.set st.2 value, st.2 + 1), true) else none)
        (List.replicate (s.Count ordCount).2 none, 0) = some (items, (s.Count ord).2) ∧
      (∀ i (h : i < items.length), ∃ e ∈ s.set.entries,
        (ordRange.visit s.set.entries)[i]? = some e ∧ items.get ⟨i, h⟩ = e.2)) ∧
    (∃ p : Iterator α, s.Iterator ordCount ordRange = some (s, p)) ∧
    (¬ it.c < it.items.length → it.call = ((none, decide (it.c = it.items.length)), it)) := by
  obtain ⟨items, hitems, hval⟩ := Set.getItemsSlice_eq ordCount ordRange s
  have hlen : items.length = s.set.entries.length := by
    rw [hval]
    exact Set.snapshot_length ordRange s
  refine ⟨⟨items, hitems, ?_, ?_, ?_⟩, ⟨_, Set.Iterator_eq ordCount ordRange s⟩, ?_⟩
  · rw [Set.Count_eq]
    exact hlen
  · have h := rangeLoop_catchingItems (ordRange.visit s.set.entries) [] 0
    simp only [List.nil_append, List.length_nil, Nat.add_zero, Nat.zero_add,
      List.replicate_zero, List.append_nil, (ordRange.perm s.set.entries).length_eq] at h
    simp only [Set.Count_eq, SyncMap.Range, h, hval]
  · intro i h
    have hi : i < (ordRange.visit s.set.entries).length := by
      rw [(ordRange.perm s.set.entries).length_eq, ← hlen]
      exact h
    refine ⟨(ordRange.visit s.set.entries)[i], ?_, List.getElem?_eq_getElem hi, ?_⟩
    · exact (ordRange.perm s.set.entries).subset (List.getElem_mem hi)
    · subst hval
      simp
  · intro h
    simp only [Iterator.call, h, dite_false]

theorem iterator_construction_infallible_witness :
    ¬ (Iterator.mk [(some 1 : Item Int), some 2] 2).c
        < (Iterator.mk [(some 1 : Item Int), some 2] 2).items.length ∧
    (Iterator.mk [(some 1 : Item Int), some 2] 2).call
      = ((none, true), Iterator.mk [(some 1 : Item Int), some 2] 2) :=
  ⟨by decide,
    (iterator_construction_infallible load RangeOrder.stored RangeOrder.stored
      RangeOrder.reversed (Iterator.mk [(some 1 : Item Int), some 2] 2)).2.2 (by decide)⟩

/-- C18: `Count` tracks the calls. A successful `Add` raises it by one, a failed
`Add` leaves it, a successful `Pop` lowers it by one (and it was at least one), a
failed `Pop` and any `Peek` leave it; it is never negative. -/
theorem count_tracks_calls (s : Set α) (key : Key) (v : Item α) (ord ordAfter : RangeOrder α) :
    ((s.Add key v).2 = none → ((s.Add key v).1.Count ordAfter).2 = (s.Count ord).2 + 1) ∧
    ((s.Add key v).2 = some Error.ErrAlreadyExists →
      ((s.Add key v).1.Count ordAfter).2 = (s.Count ord).2) ∧
    ((s.Pop key).2.2 = none →
      1 ≤ (s.Count ord).2 ∧ ((s.Pop key).1.Count ordAfter).2 = (s.Count ord).2 - 1) ∧
    ((s.Pop key).2.2 = some Error.ErrKeyDoesNotExist →
      ((s.Pop key).1.Count ordAfter).2 = (s.Count ord).2) ∧
    ((s.Peek key).1.Count ordAfter).2 = (s.Count ord).2 ∧
    (0 : Int) ≤ ((s.Count ord).2 : Int) := by
  simp only [Set.Count_eq]
  refine ⟨?_, ?_, ?_, ?_, rfl, Int.natCast_nonneg _⟩
  · intro h
    rw [Set.Add_entries_of_not_mem v ((Set.Add_err_none_iff s key v).mp h)]
    rfl
  · intro h
    have hm : key () ∈ s.set.keys := by
      by_contra hc
      rw [(Set.Add_err_none_iff s key v).mpr hc] at h
      cases h
    rw [Set.Add_of_mem v hm]
  · intro h
    have hm := (Set.Pop_err_none_iff s key).mp h
    have hl := filter_ne_length s.set.nodup hm
    rw [Set.Pop_entries s key hm]
    constructor
    · show 1 ≤ s.set.entries.length
      omega
    · show _ = s.set.entries.length - 1
      omega
  · intro h
    have hm : key () ∉ s.set.keys := by
      intro hc
      rw [(Set.Pop_err_none_iff s key).mpr hc] at h
      cases h
    rw [Set.Pop_of_not_mem hm]

theorem count_tracks_calls_witness :
    (load.Add key4 (some 4)).2 = none ∧
    ((load.Add key4 (some 4)).1.Count RangeOrder.reversed).2
      = (load.Count RangeOrder.stored).2 + 1 ∧
    (load.Pop key1).2.2 = none ∧
    ((load.Pop key1).1.Count RangeOrder.reversed).2 = (load.Count RangeOrder.stored).2 - 1 :=
  ⟨by decide,
    (count_tracks_calls load key4 (some 4) RangeOrder.stored RangeOrder.reversed).1 (by decide),
    by decide,
    ((count_tracks_calls load key1 none RangeOrder.stored RangeOrder.reversed).2.2.1
      (by decide)).2⟩

/-- C19: insertion order is not observable. For two accessors with different
keys, `Add(ka, va)` then `Add(kb, vb)` and `Add(kb, vb)` then `Add(ka, va)` return
the same error for `ka` and the same error for `kb`, and afterwards `Peek` of
every key and `Count` return the same in both. -/
theorem add_order_unobservable (s : Set α) (ka kb : Key) (va vb : Item α)
    (ord : RangeOrder α) (h : ka () ≠ kb ()) :
    (s.Add ka va).2 = ((s.Add kb vb).1.Add ka va).2 ∧
    ((s.Add ka va).1.Add kb vb).2 = (s.Add kb vb).2 ∧
    (∀ key : Key, (((s.Add ka va).1.Add kb vb).1.Peek key).2
      = (((s.Add kb vb).1.Add ka va).1.Peek key).2) ∧
    (((s.Add ka va).1.Add kb vb).1.Count ord).2
      = (((s.Add kb vb).1.Add ka va).1.Count ord).2 := by
  have hba : kb () ≠ ka () := fun c => h c.symm
  by_cases ha : ka () ∈ s.set.keys
  · by_cases hb : kb () ∈ s.set.keys
    · simp only [Set.Add_of_mem va ha, Set.Add_of_mem vb hb]
      exact ⟨trivial, trivial, fun _ => trivial, trivial⟩
    · have ha2 : ka () ∈ (s.Add kb vb).1.set.keys := by
        rw [Set.Add_keys_of_not_mem vb hb]
        exact List.mem_cons_of_mem _ ha
      rw [Set.Add_of_mem va ha, Set.Add_of_mem va ha2]
      exact ⟨rfl, rfl, fun _ => rfl, rfl⟩
  · by_cases hb : kb () ∈ s.set.keys
    · have hb2 : kb () ∈ (s.Add ka va).1.set.keys := by
        rw [Set.Add_keys_of_not_mem va ha]
        exact List.mem_cons_of_mem _ hb
      rw [Set.Add_of_mem vb hb, Set.Add_of_mem vb hb2]
      exact ⟨rfl, rfl, fun _ => rfl, rfl⟩
    · have ha2 : ka () ∉ (s.Add kb vb).1.set.keys := by
        rw [Set.Add_keys_of_not_mem vb hb]
        intro hc
        rcases List.mem_cons.mp hc with heq | hin
        · exact h heq
        · exact ha hin
      have hb2 : kb () ∉ (s.Add ka va).1.set.keys := by
        rw [Set.Add_keys_of_not_mem va ha]
        intro hc
        rcases List.mem_cons.mp hc with heq | hin
        · exact hba heq
        · exact hb hin
      have e1 : ((s.Add ka va).1.Add kb vb).1.set.entries
          = (kb (), vb) :: (ka (), va) :: s.set.entries := by
        rw [Set.Add_entries_of_not_mem vb hb2, Set.Add_entries_of_not_mem va ha]
      have e2 : ((s.Add kb vb).1.Add ka va).1.set.entries
          = (ka (), va) :: (kb (), vb) :: s.set.entries := by
        rw [Set.Add_entries_of_not_mem va ha2, Set.Add_entries_of_not_mem vb hb]
      have hobs := Set.peek_count_eq_of_entries
        (s := ((s.Add kb vb).1.Add ka va).1) (t := ((s.Add ka va).1.Add kb vb).1)
        (fun k => by rw [e1, e2]; exact lookupEntry_swap k _ _ va vb _ h)
        (by rw [e1, e2]; rfl) ord
      refine ⟨?_, ?_, hobs.1, hobs.2⟩
      · rw [(Set.Add_err_none_iff s ka va).mpr ha,
          (Set.Add_err_none_iff (s.Add kb vb).1 ka va).mpr ha2]
      · rw [(Set.Add_err_none_iff s kb vb).mpr hb,
          (Set.Add_err_none_iff (s.Add ka va).1 kb vb).mpr hb2]

theorem add_order_unobservable_witness :
    key1 () ≠ key4 () ∧
    (load.Add key1 (some 7)).2 = ((load.Add key4 (some 4)).1.Add key1 (some 7)).2 ∧
    ((load.Add key1 (some 7)).1.Add key4 (some 4)).2 = (load.Add key4 (some 4)).2 ∧
    (((load.Add key1 (some 7)).1.Add key4 (some 4)).1.Count RangeOrder.stored).2
      = (((load.Add key4 (some 4)).1.Add key1 (some 7)).1.Count RangeOrder.stored).2 :=
  ⟨by decide,
    (add_order_unobservable load key1 key4 (some 7) (some 4) RangeOrder.stored (by decide)).1,
    (add_order_unobservable load key1 key4 (some 7) (some 4) RangeOrder.stored (by decide)).2.1,
    (add_order_unobservable load key1 key4 (some 7) (some 4) RangeOrder.stored
      (by decide)).2.2.2⟩

/-- C20: `Add` then `Pop` is a round trip. When the key has no entry, `Add(k, v)`
followed by `Pop(k)` returns `v` and the nil error from the `Pop` and leaves the
set as it was before the `Add`: `Peek` of every key and `Count` return what they
returned before. -/
theorem add_pop_round_trip (s : Set α) (key : Key) (v : Item α) (ord : RangeOrder α)
    (h : key () ∉ s.set.keys) :
    ((s.Add key v).1.Pop key).2 = (v, none) ∧
    ((s.Add key v).1.Pop key).1 = s ∧
    (∀ other : Key, (((s.Add key v).1.Pop key).1.Peek other).2 = (s.Peek other).2) ∧
    (((s.Add key v).1.Pop key).1.Count ord).2 = (s.Count ord).2 := by
  have hent := Set.Add_entries_of_not_mem v h
  have hm : (key (), v) ∈ (s.Add key v).1.set.entries := by
    rw [hent]
    exact List.mem_cons_self _ _
  have hset : ((s.Add key v).1.Pop key).1 = s := by
    apply Set.eq_of_entries
    rw [Set.Pop_of_mem_entries hm]
    show (s.Add key v).1.set.entries.filter (fun e => decide (e.1 ≠ key ())) = s.set.entries
    have hd : decide ((key (), v).1 ≠ key ()) = false := decide_eq_false (not_not.mpr rfl)
    rw [hent, List.filter_cons_of_neg (by simp [hd])]
    exact filter_ne_of_not_mem h
  refine ⟨?_, hset, ?_, ?_⟩
  · rw [Set.Pop_of_mem_entries hm]
  · intro other
    rw [hset]
  · rw [hset]

theorem add_pop_round_trip_witness :
    key4 () ∉ load.set.keys ∧
    ((load.Add key4 (some 4)).1.Pop key4).2 = (some 4, none) ∧
    ((load.Add key4 (some 4)).1.Pop key4).1 = load :=
  ⟨by decide, (add_pop_round_trip load key4 (some 4) RangeOrder.stored (by decide)).1,
    (add_pop_round_trip load key4 (some 4) RangeOrder.stored (by decide)).2.1⟩

/-- C14: frozen snapshot. A client creates a producer with `Iterator` and then
makes any calls `cs`: `Add`, `Pop`, `Clear`, further `Iterator` calls and
invocations of any producer.  The pairs the new producer returns are those of its
own successive invocations alone, the same as when every other call is left out;
and the same holds for each producer the client already held. -/
theorem frozen_snapshot (s : Set α) (ordCount ordRange : RangeOrder α)
    (earlier : List (Iterator α)) (cs : List (Call α)) :
    ∃ it : Iterator α,
      Client.step ⟨s, earlier⟩ (Call.iterator ordCount ordRange)
        = some (⟨s, earlier ++ [it]⟩, none) ∧
      Client.produced earlier.length ⟨s, earlier ++ [it]⟩ cs
        = some ((List.range (cs.countP (Call.isNext earlier.length))).map it.nthCall) ∧
      Client.produced earlier.length ⟨s, earlier ++ [it]⟩
          (cs.filter (Call.isNext earlier.length))
        = Client.produced earlier.length ⟨s, earlier ++ [it]⟩ cs ∧
      ∀ (q : Nat) (old : Iterator α), earlier[q]? = some old →
        Client.produced q ⟨s, earlier ++ [it]⟩ cs
          = some ((List.range (cs.countP (Call.isNext q))).map old.nthCall) := by
  have hnew : ∀ it : Iterator α, (earlier ++ [it])[earlier.length]? = some it := by
    intro it
    simp
  refine ⟨⟨(ordRange.visit s.set.entries).map Prod.snd, 0⟩, ?_, ?_, ?_, ?_⟩
  · simp only [Client.step, Set.Iterator_eq]
  · exact Client.produced_eq _ cs _ _ (hnew _)
  · rw [Client.produced_eq _ cs _ _ (hnew _),
      Client.produced_eq _ (cs.filter (Call.isNext earlier.length)) _ _ (hnew _),
      List.countP_filter]
    simp
  · intro q old hq
    have hlt : q < earlier.length := (List.getElem?_eq_some.mp hq).1
    exact Client.produced_eq q cs _ old (by rw [List.getElem?_append_left hlt]; exact hq)

theorem frozen_snapshot_witness :
    [Iterator.mk [(some 5 : Item Int)] 0][0]? = some (Iterator.mk [(some 5 : Item Int)] 0) ∧
    ∃ it : Iterator Int,
      Client.produced 0 ⟨load, [Iterator.mk [(some 5 : Item Int)] 0] ++ [it]⟩
          [Call.next 1, Call.next 0, Call.clear, Call.add key4 (some 4), Call.next 0]
        = some ((List.range
            ([Call.next 1, Call.next 0, Call.clear, Call.add key4 (some 4), Call.next 0].countP
              (Call.isNext 0))).map
            (Iterator.mk [(some 5 : Item Int)] 0).nthCall) :=
  ⟨rfl,
    (frozen_snapshot load RangeOrder.stored RangeOrder.reversed
      [Iterator.mk [(some 5 : Item Int)] 0]
      [Call.next 1, Call.next 0, Call.clear, Call.add key4 (some 4), Call.next 0]).imp
      (fun _ hit => hit.2.2.2 0 _ rfl)⟩

/-- C15: two goroutines call `Pop(key1)` on the set whose only entry is `key1 ↦ 1`.
When both run `Peek` before either deletes, both return the value 1 with the nil
error, and the entry is gone. -/
theorem pop_race_both_succeed :
    ((popRace single key1 2).run [0, 0, 0, 1, 1, 1, 0, 0, 0, 1, 1, 1]).goroutines.map
        Goroutine.popResult
      = [some (some 1, none), some (some 1, none)] ∧
    ((popRace single key1 2).run [0, 0, 0, 1, 1, 1, 0, 0, 0, 1, 1, 1]).shared.set.entries = [] ∧
    ((popRace single key1 2).run [0, 0, 0, 1, 1, 1, 0, 0, 0, 1, 1, 1]).shared.locked = false := by
  decide

/-- C16: concurrent `Add` race. Goroutines call `Add(key, v)` for the values `vs`
(at least two) on a set where the key has no entry. Under every schedule that lets
all of them return, exactly one call returns nil and every other call returns
`ErrAlreadyExists`, and afterwards the key holds the value of the call that
returned nil. -/
theorem add_race_one_winner (s : Set α) (key : Key) (vs : List (Item α)) (sched : List Nat)
    (hN : 2 ≤ vs.length) (habs : key () ∉ s.set.keys)
    (hdone : (((addRace s key vs).run sched).goroutines.all
      (fun g => g.addResult.isSome)) = true) :
    ((addRace s key vs).run sched).goroutines.length = vs.length ∧
    ∃ (i : Nat) (v : Item α), vs[i]? = some v ∧
      (((addRace s key vs).run sched).goroutines[i]?).map Goroutine.addResult
        = some (some none) ∧
      (∀ j, j < vs.length → j ≠ i →
        (((addRace s key vs).run sched).goroutines[j]?).map Goroutine.addResult
          = some (some (some Error.ErrAlreadyExists))) ∧
      ((Set.mk ((addRace s key vs).run sched).shared.set).Peek key).2 = (v, none) := by
  obtain ⟨hlen, hcase⟩ := AddRaceInv.run habs sched _ (AddRaceInv.init s key vs)
  have hall := List.all_eq_true.mp hdone
  refine ⟨hlen, ?_⟩
  rcases hcase with ⟨_, hnone⟩ | ⟨i, v, hvi, hgi, hmem, hothers⟩
  · have h0 : 0 < vs.length := by omega
    have hg := hnone 0 vs[0] (List.getElem?_eq_getElem h0)
    have hbad := hall _ (List.getElem?_mem hg)
    simp [Goroutine.addResult] at hbad
  · refine ⟨i, v, hvi, by rw [hgi]; rfl, ?_, ?_⟩
    · intro j hj hji
      rcases hothers j vs[j] hji (List.getElem?_eq_getElem hj) with hadd | hret
      · have hbad := hall _ (List.getElem?_mem hadd)
        simp [Goroutine.addResult] at hbad
      · rw [hret]
        rfl
    · rw [@Set.Peek_of_mem_entries α (Set.mk ((addRace s key vs).run sched).shared.set) key v
        hmem]

theorem add_race_one_winner_witness :
    2 ≤ [(some 1 : Item Int), some 2, some 3].length ∧
    key1 () ∉ (emptySet : Set Int).set.keys ∧
    ((addRace (emptySet : Set Int) key1 [some 1, some 2, some 3]).run [1, 0, 1, 2]).goroutines.length
      = 3 ∧
    ∃ (i : Nat) (v : Item Int), [(some 1 : Item Int), some 2, some 3][i]? = some v ∧
      (((addRace (emptySet : Set Int) key1 [some 1, some 2, some 3]).run
          [1, 0, 1, 2]).goroutines[i]?).map Goroutine.addResult = some (some none) ∧
      (∀ j, j < [(some 1 : Item Int), some 2, some 3].length → j ≠ i →
        (((addRace (emptySet : Set Int) key1 [some 1, some 2, some 3]).run
            [1, 0, 1, 2]).goroutines[j]?).map Goroutine.addResult
          = some (some (some Error.ErrAlreadyExists))) ∧
      ((Set.mk ((addRace (emptySet : Set Int) key1 [some 1, some 2, some 3]).run
          [1, 0, 1, 2]).shared.set).Peek key1).2 = (v, none) :=
  ⟨by decide, by decide,
    add_race_one_winner emptySet key1 [some 1, some 2, some 3] [1, 0, 1, 2]
      (by decide) (by decide) (by decide)⟩

end Claims

end GoSet
